import Mathlib

/-!
Verification development for the `a-h/terminator` repository.

The repository selects EC2 instances of AWS autoscaling groups for
termination.  Its decision core is embedded shallowly below:

* `SemVer`, `SemVer.lt`, `SemVer.gt` — the `blang/semver` version triple and
  its order, restricted to release versions (no claim touches pre-release
  tags, so the `Pre`/`Build` fields are omitted).
* `strEqualFold` — `strings.EqualFold`; modelled as equality after
  per-character lower-casing, which agrees with Go on ASCII input.
* `Instance`, `InstanceDetail`, `AutoScalingGroup` — the data model of
  `integration` (instance.go / autoscalinggroups.go).
* `detailsLess` — the `InstanceDetails.Less` comparator.
* `insertionSortGo` — `sort.Sort`; Go's algorithm is exactly insertion sort
  for slices shorter than 7 elements (our concrete inputs all are), and for
  longer slices it still produces a permutation, which is all any theorem
  below uses.
* `categoriseInstances`, `getInstanceIDs`, `removeDuplicates`,
  `mismatchedIdsFrom`, `getTargetInstancesP3`, `getTargetInstancesP4` — the
  termination selectors of the `integration` package (the P3 variant carries
  the abstention check, the P4 variant does not).
* `getOldestVersions`, `takeAtMost`, `getDetailsM`, `getOldestIDs`,
  `filterByName`, `terminate` — the older decision pipeline of `main.go`.
* `TerminateT` — `Terminate` of `terminator.go`.
* `getInstanceDetailsP2` — `AWSProvider.GetInstanceDetails` (the variant that
  skips failing probes and errors only when no probe succeeded).

Functions that can panic in Go (out-of-range indexing, negative slice
bounds) return `Option`, with `none` for the panic.  External collaborators
(the `CloudProvider` interface) are modelled as function-valued oracles.
-/

namespace Terminator

/-- Semantic version as used by `github.com/blang/semver`: the numeric
`major.minor.patch` triple.  Claims only compare release versions, so the
pre-release and build fields are not modelled. -/
structure SemVer where
  major : Nat
  minor : Nat
  patch : Nat
deriving DecidableEq

/-- The zero value `semver.Version{}`, used by Go as the sentinel initial
value of the `highest`/`lowest` accumulators. -/
def SemVer.zero : SemVer := ⟨0, 0, 0⟩

/-- Version order `a.LT(b)` of `blang/semver`: lexicographic on
(major, minor, patch). -/
def SemVer.lt (a b : SemVer) : Bool :=
  Nat.blt a.major b.major ||
    (Nat.beq a.major b.major &&
      (Nat.blt a.minor b.minor ||
        (Nat.beq a.minor b.minor && Nat.blt a.patch b.patch)))

/-- Version order `a.GT(b)` of `blang/semver`: `b < a`. -/
def SemVer.gt (a b : SemVer) : Bool := SemVer.lt b a

/-- Lower-case an ASCII character code, helper for the `strings.EqualFold`
model. -/
def charLower (c : Char) : Nat :=
  if 65 ≤ c.toNat && c.toNat ≤ 90 then c.toNat + 32 else c.toNat

/-- Character-list case folding equality, helper for `strEqualFold`. -/
def eqFoldChars : List Char → List Char → Bool
  | [], [] => true
  | c :: cs, d :: ds => (charLower c == charLower d) && eqFoldChars cs ds
  | _, _ => false

/-- Model of `strings.EqualFold`: case-insensitive string equality.  Go
performs Unicode simple folding; on the ASCII status strings the repository
compares, that is exactly ASCII-case-insensitive equality. -/
def strEqualFold (a b : String) : Bool := eqFoldChars a.data b.data

/-- An EC2 instance as reported by the autoscaling API
(`integration.Instance`). -/
structure Instance where
  id : String
  healthStatus : String
  lifecycleState : String
deriving DecidableEq

/-- Health predicate `Instance.IsHealthy` (also `isHealthy` in main.go):
case-insensitive equality with "Healthy" and "InService". -/
def Instance.isHealthy (inst : Instance) : Bool :=
  strEqualFold inst.healthStatus "Healthy" &&
    strEqualFold inst.lifecycleState "InService"

/-- Version metadata for one instance (`integration.InstanceDetail`).
`time.Time` is modelled as an integer timestamp; `LaunchTime.Before` is
`<`. -/
structure InstanceDetail where
  id : String
  versionNumber : SemVer
  launchTime : Int
deriving DecidableEq

/-- The comparator `InstanceDetails.Less` (instance.go lines 36-38):
`slice[i].VersionNumber.LT(slice[j].VersionNumber) ||
slice[i].LaunchTime.Before(slice[j].LaunchTime)` — note there is no
equal-version guard in front of the launch-time disjunct. -/
def detailsLess (d e : InstanceDetail) : Bool :=
  SemVer.lt d.versionNumber e.versionNumber ||
    decide (d.launchTime < e.launchTime)

/-- Insert `x` into the reversed already-sorted prefix, mirroring the inner
loop of Go's insertion sort (`for j := i; j > a && data.Less(j, j-1); j--`):
`x` moves left while `less x` holds of its left neighbour. -/
def insertGoRev (less : α → α → Bool) (x : α) : List α → List α
  | [] => [x]
  | y :: ys => if less x y then y :: insertGoRev less x ys else x :: y :: ys

/-- Model of `sort.Sort`.  Go's `sort.Sort` is exactly this insertion sort
for slices of fewer than 7 elements; for longer slices its (unspecified)
introsort still returns a permutation of the input, which is the only fact
the theorems below use for unbounded lists. -/
def insertionSortGo (less : α → α → Bool) (l : List α) : List α :=
  (l.foldl (fun acc x => insertGoRev less x acc) []).reverse

/-- Partition into healthy and other instances (`categoriseInstances`),
preserving input order inside each part.  The `minimumInstanceCount`
parameter of the main.go copy is unused there and omitted here. -/
def categoriseInstances : List Instance → List Instance × List Instance
  | [] => ([], [])
  | inst :: rest =>
    let hu := categoriseInstances rest
    if inst.isHealthy then (inst :: hu.1, hu.2) else (hu.1, inst :: hu.2)

/-- Projection to instance IDs (`getInstanceIDs`). -/
def getInstanceIDs (instances : List Instance) : List String :=
  instances.map Instance.id

/-- Tail of `removeDuplicates`: keep elements not yet encountered, first
occurrence wins.  `seen` plays the role of the `encountered` map. -/
def removeDuplicatesAux : List String → List String → List String
  | [], _ => []
  | x :: rest, seen =>
    if seen.contains x then removeDuplicatesAux rest seen
    else x :: removeDuplicatesAux rest (x :: seen)

/-- Deduplication preserving first-seen order
(`removeDuplicates`, autoscalinggroups.go of the integration package). -/
def removeDuplicates (elements : List String) : List String :=
  removeDuplicatesAux elements []

/-- An autoscaling group (`integration.AutoScalingGroup`).  The older
variant of the structure has no `InstanceDetails` field; its functions
simply ignore the field here. -/
structure AutoScalingGroup where
  name : String
  instances : List Instance
  instanceDetails : List InstanceDetail
deriving DecidableEq

/-- The `mismatchedInstances` loop shared by the `GetTargetInstances`
variants:

`for i, details := range group.InstanceDetails {
   if details.VersionNumber.LT(canonical) || details.VersionNumber.GT(canonical) {
     mismatchedInstances = append(mismatchedInstances, group.Instances[i].ID) } }`

`i` counts detail positions; the recorded ID is read from `Instances[i]`,
and the access panics (`none`) when a mismatching detail sits at an index
with no corresponding instance. -/
def mismatchedIdsFrom (instances : List Instance) (canonical : SemVer) :
    Nat → List InstanceDetail → Option (List String)
  | _, [] => some []
  | i, d :: rest =>
    if SemVer.lt d.versionNumber canonical || SemVer.gt d.versionNumber canonical then
      match instances[i]? with
      | none => none
      | some inst =>
        (mismatchedIdsFrom instances canonical (i + 1) rest).map (inst.id :: ·)
    else mismatchedIdsFrom instances canonical (i + 1) rest

/-- The cap-and-slice tail shared by the selector variants:

`if len(ids) <= maximum { return ids }; return ids[:maximum]`

The slice panics (`none`) when `maximum` is negative. -/
def capIds (ids : List String) (maximum : Int) : Option (List String) :=
  if (ids.length : Int) ≤ maximum then some ids
  else if 0 ≤ maximum then some (ids.take maximum.toNat) else none

/-- The body of `AutoScalingGroup.GetTargetInstances` after the guards in
the abstention variant (part_003 lines 314-341): mismatch computation,
no-mismatch early exit, dedup of mismatched ++ surplus healthy, and cap at
`len(group.Instances) - minimumInstanceCount`. -/
def getTargetInstancesP3Core (group : AutoScalingGroup) (canonical : SemVer)
    (minimumInstanceCount : Nat) (healthy : List Instance) : Option (List String) :=
  match mismatchedIdsFrom group.instances canonical 0 group.instanceDetails with
  | none => none
  | some mismatched =>
    if mismatched.length = 0 then some []
    else
      capIds
        (removeDuplicates
          (mismatched ++ getInstanceIDs (healthy.drop minimumInstanceCount)))
        ((group.instances.length : Int) - (minimumInstanceCount : Int))

/-- `AutoScalingGroup.GetTargetInstances`, abstention variant (part_003
lines 295-342): safety gate, then abstain with an empty result when
`len(unhealthy) > 0 || len(healthy) != len(group.InstanceDetails)`, then
`getTargetInstancesP3Core`.  `minimumInstanceCount` is a `Nat` because the
spec's policy constrains it to be non-negative. -/
def getTargetInstancesP3 (group : AutoScalingGroup) (canonical : SemVer)
    (minimumInstanceCount : Nat) : Option (List String) :=
  let hu := categoriseInstances group.instances
  if hu.1.length ≤ minimumInstanceCount then some []
  else if 0 < hu.2.length ∨ hu.1.length ≠ group.instanceDetails.length then some []
  else getTargetInstancesP3Core group canonical minimumInstanceCount hu.1

/-- `AutoScalingGroup.GetTargetInstances`, variant without the abstention
check (part_004 lines 37-85): safety gate, mismatch computation over all
instance details, then either the unhealthy IDs (when nothing mismatched)
or the deduplicated mismatched ++ surplus-healthy IDs, both capped at
`len(group.Instances) - minimumInstanceCount`. -/
def getTargetInstancesP4 (group : AutoScalingGroup) (canonical : SemVer)
    (minimumInstanceCount : Nat) : Option (List String) :=
  let hu := categoriseInstances group.instances
  if hu.1.length ≤ minimumInstanceCount then some []
  else
    match mismatchedIdsFrom group.instances canonical 0 group.instanceDetails with
    | none => none
    | some mismatched =>
      let maximum : Int := (group.instances.length : Int) - (minimumInstanceCount : Int)
      if mismatched.length = 0 then capIds (getInstanceIDs hu.2) maximum
      else
        capIds
          (removeDuplicates
            (mismatched ++ getInstanceIDs (hu.1.drop minimumInstanceCount)))
          maximum

/-- `takeAtMost` (main.go lines 268-274): return all of `details` when its
length is at most `most`, else the slice `details[:most]` — which panics
(`none`) for negative `most`, since `len(details) <= most` is then false
and Go slicing rejects a negative bound. -/
def takeAtMost (details : List InstanceDetail) (most : Int) : Option (List InstanceDetail) :=
  if (details.length : Int) ≤ most then some details
  else if 0 ≤ most then some (details.take most.toNat) else none

/-- The `highestVersion` accumulation loop of `getOldestVersions`:
`if instance.VersionNumber.GT(highestVersion) { highestVersion = ... }`. -/
def foldHighest (details : List InstanceDetail) (acc : SemVer) : SemVer :=
  details.foldl (fun h d => if SemVer.gt d.versionNumber h then d.versionNumber else h) acc

/-- The `lowestVersion` accumulation of `getOldestVersions`:
`if instance.VersionNumber.LT(lowestVersion) { lowestVersion = ... }`,
started at the highest version. -/
def foldLowest (details : List InstanceDetail) (acc : SemVer) : SemVer :=
  details.foldl (fun l d => if SemVer.lt d.versionNumber l then d.versionNumber else l) acc

/-- `getOldestVersions` (main.go lines 241-266): fold for the highest
version (zero sentinel start), one pass collecting sub-highest instances
and the lowest version (started at `highest`), `sort.Sort` of the old
instances with the `Less` comparator, and `takeAtMost`.  Go's single second
loop both appends and lowers `lowest`; the two accumulations are written
separately here, producing the same values. -/
def getOldestVersions (details : List InstanceDetail) (maximumOldVersions : Int) :
    Option (SemVer × SemVer × List InstanceDetail) :=
  let highestVersion := foldHighest details SemVer.zero
  let lowestVersion := foldLowest details highestVersion
  let oldInstances := details.filter (fun d => SemVer.lt d.versionNumber highestVersion)
  (takeAtMost (insertionSortGo detailsLess oldInstances) maximumOldVersions).map
    (fun filtered => (lowestVersion, highestVersion, filtered))

/-- `filterByName` (main.go lines 157-173): empty filter returns the input
unchanged; otherwise, for each group in order, one copy is appended per
case-insensitively matching filter entry. -/
def filterByName (grps : List AutoScalingGroup) (namesToInclude : List String) :
    List AutoScalingGroup :=
  if namesToInclude.length = 0 then grps
  else
    grps.flatMap (fun g =>
      namesToInclude.flatMap (fun n => if strEqualFold g.name n then [g] else []))

/-- Parameters of main.go's `terminate` (the `parameters` struct of the
older main.go).  `region`, `scheme`, `port` and `versionURL` only feed the
probe collaborator and are absorbed by the `getDetail` oracle of
`CloudV1`. -/
structure Params where
  isDryRun : Bool
  minimumInstanceCount : Nat
  onlyTerminateOldVersions : Bool
  autoScalingGroups : List String
deriving DecidableEq

/-- Oracle for the `CloudProvider` collaborator used by main.go's
`terminate`: the outcome of `DescribeAutoScalingGroups()`, of each
`GetDetail` probe (keyed by instance ID; the scheme/port/path arguments are
fixed by the parameters), and whether each `TerminateInstances` call
succeeds. -/
structure CloudV1 where
  groups : Except Unit (List AutoScalingGroup)
  getDetail : String → Except Unit InstanceDetail
  terminateOk : List String → Bool

/-- `getDetails` (main.go lines 223-239): probe every instance, abort on
the first failing probe, then `sort.Sort` the collected details. -/
def getDetailsM (cloud : CloudV1) (instances : List Instance) :
    Except Unit (List InstanceDetail) :=
  match instances.mapM (fun inst => cloud.getDetail inst.id) with
  | .error e => .error e
  | .ok details => .ok (insertionSortGo detailsLess details)

/-- `getOldestIDs` (main.go lines 205-221): details, then
`getOldestVersions`, then the IDs of the selected details.  The outer
`Option` is the panic channel of `getOldestVersions`. -/
def getOldestIDs (cloud : CloudV1) (instances : List Instance) (maximumInstances : Int) :
    Option (Except Unit (SemVer × SemVer × List String)) :=
  match getDetailsM cloud instances with
  | .error e => some (.error e)
  | .ok details =>
    match getOldestVersions details maximumInstances with
    | none => none
    | some r => some (.ok (r.1, r.2.1, r.2.2.map InstanceDetail.id))

/-- The decision part of main.go's `terminate` loop body (lines 100-120):
in old-versions mode the IDs come from `getOldestIDs` (with the cap
`len(healthy) - minimumInstanceCount`), an error leaving them `nil`
(modelled `[]`) while control continues; in rolling mode they are the IDs
of `healthy[minimumInstanceCount:] ++ unhealthy`.  The result of
`cloud.terminateOk` is only logged by Go and accordingly not consulted for
the returned list. -/
def terminateDecide (cloud : CloudV1) (p : Params) (healthy unhealthy : List Instance) :
    Option (List String) :=
  if p.onlyTerminateOldVersions then
    match
      getOldestIDs cloud healthy
        ((healthy.length : Int) - (p.minimumInstanceCount : Int)) with
    | none => none
    | some (.error _) => some []
    | some (.ok r) => some r.2.2
  else some (getInstanceIDs (healthy.drop p.minimumInstanceCount ++ unhealthy))

/-- The dry-run / execution gate of the loop body (lines 126-137):
dry-run leaves the state unchanged; otherwise the IDs are appended to the
accumulator first and `TerminateInstances` is then invoked. -/
def terminateStep (cloud : CloudV1) (p : Params)
    (st : List String × List (List String)) (g : AutoScalingGroup) :
    Option (List String × List (List String)) :=
  let hu := categoriseInstances g.instances
  if hu.1.length > p.minimumInstanceCount then
    match terminateDecide cloud p hu.1 hu.2 with
    | none => none
    | some ids =>
      if p.isDryRun then some st
      else some (st.1 ++ ids, st.2 ++ [ids])
  else some st

/-- `terminate` (main.go lines 73-145): describe the groups (an error
returns the empty accumulator), filter them by name, and run the per-group
loop.  Returns the accumulated terminated-instance IDs and the trace of
`TerminateInstances` calls; `none` models a Go panic. -/
def terminate (cloud : CloudV1) (p : Params) :
    Option (List String × List (List String)) :=
  match cloud.groups with
  | .error _ => some ([], [])
  | .ok allGroups =>
    (filterByName allGroups p.autoScalingGroups).foldlM (terminateStep cloud p) ([], [])

/-- Parameters of `Terminate` (terminator.go).  `canonical` holds the
outcome of `semver.Make(p.canonical)`: `none` models an unparsable
canonical flag. -/
structure ParamsT where
  isDryRun : Bool
  minimumInstanceCount : Nat
  canonical : Option SemVer
deriving DecidableEq

/-- Oracle for the provider used by `Terminate`: the outcome of
`DescribeAutoScalingGroups(names, scheme, port, path)` (the returned groups
carry their `InstanceDetails`), and the success of each
`TerminateInstances` call. -/
structure CloudV2 where
  groups : Except Unit (List AutoScalingGroup)
  terminateOk : List String → Bool

/-- The per-group body of `Terminate` (terminator.go lines 39-68): run the
selector, skip empty target sets, skip under dry-run, otherwise call
`TerminateInstances` and append the targets to the accumulator only when
the call succeeded. -/
def terminateTStep (cloud : CloudV2) (p : ParamsT) (canonical : SemVer)
    (st : List String × List (List String)) (g : AutoScalingGroup) :
    Option (List String × List (List String)) :=
  match getTargetInstancesP3 g canonical p.minimumInstanceCount with
  | none => none
  | some targets =>
    if targets.length ≤ 0 then some st
    else if p.isDryRun then some st
    else
      if cloud.terminateOk targets then some (st.1 ++ targets, st.2 ++ [targets])
      else some (st.1, st.2 ++ [targets])

/-- `Terminate` (terminator.go lines 11-72): describe the groups and parse
the canonical version (either failure returns `nil` with no terminate
calls), then run the per-group loop over the selector
`getTargetInstancesP3`. -/
def TerminateT (cloud : CloudV2) (p : ParamsT) :
    Option (List String × List (List String)) :=
  match cloud.groups with
  | .error _ => some ([], [])
  | .ok groups =>
    match p.canonical with
    | none => some ([], [])
    | some canonical => groups.foldlM (terminateTStep cloud p canonical) ([], [])

/-- An instance as handed to `AWSProvider.GetInstanceDetails` (the AWS SDK
`autoscaling.Instance`); only its `InstanceId` is consumed. -/
structure AwsInstance where
  instanceId : String
deriving DecidableEq

/-- `AWSProvider.GetInstanceDetails` (part_002 lines 98-124): probe every
instance, skipping (`continue`) the ones whose probe fails, and return an
error iff no detail at all was collected.  The group name, scheme, port and
path arguments only feed logging and the probe oracle. -/
def getInstanceDetailsP2 (getDetail : String → Except Unit InstanceDetail)
    (instances : List AwsInstance) : Except Unit (List InstanceDetail) :=
  let details := instances.filterMap (fun inst => (getDetail inst.instanceId).toOption)
  if details.length ≤ 0 then .error () else .ok details

/-- Comparator modelled from the spec: lexicographic on
(version, launchTime) — strictly lower version first, launch time deciding
only between equal versions.  Stated for comparison with the
implementation's `detailsLess`. -/
def lexLess (d e : InstanceDetail) : Bool :=
  SemVer.lt d.versionNumber e.versionNumber ||
    (d.versionNumber == e.versionNumber && decide (d.launchTime < e.launchTime))

/-- Modelled from the spec: `selectOldest(versionDetails, cap)` of §4.3 —
highest and lowest versions (zero sentinel when empty), the sub-highest
subsequence sorted by the lexicographic (version, launchTime) comparator,
and the first `min(cap, len(old))` elements, a negative cap selecting
nothing.  Stated for comparison with the implementation's
`getOldestVersions`. -/
def selectOldestSpec (details : List InstanceDetail) (cap : Int) :
    SemVer × SemVer × List InstanceDetail :=
  let highest := foldHighest details SemVer.zero
  let lowest := foldLowest details highest
  let old := details.filter (fun d => SemVer.lt d.versionNumber highest)
  (lowest, highest, (insertionSortGo lexLess old).take cap.toNat)

/-- Modelled from the spec: the `mismatched` set of §4.4 — the IDs of
exactly the instances whose own version detail is strictly below or above
the canonical version.  Stated for comparison with the implementation's
`mismatchedIdsFrom`. -/
def mismatchedBySpec (details : List InstanceDetail) (canonical : SemVer) : List String :=
  (details.filter
      (fun d => SemVer.lt d.versionNumber canonical || SemVer.gt d.versionNumber canonical)).map
    InstanceDetail.id

/-- The rolling-mode decision of main.go line 118-119:
`append(healthy[p.minimumInstanceCount:], unhealthy...)` projected to IDs.
Named so the dry-run/failure theorem can speak about a group's decision. -/
def rollingIds (g : AutoScalingGroup) (p : Params) : List String :=
  getInstanceIDs
    ((categoriseInstances g.instances).1.drop p.minimumInstanceCount ++
      (categoriseInstances g.instances).2)

/-! ### Order lemmas for `SemVer.lt` -/

theorem SemVer.lt_iff (a b : SemVer) :
    SemVer.lt a b = true ↔
      a.major < b.major ∨
        (a.major = b.major ∧
          (a.minor < b.minor ∨ (a.minor = b.minor ∧ a.patch < b.patch))) := by
  simp [SemVer.lt, Nat.blt_eq, Nat.beq_eq_true_eq]

theorem SemVer.not_lt_iff (a b : SemVer) :
    SemVer.lt a b = false ↔
      ¬(a.major < b.major ∨
        (a.major = b.major ∧
          (a.minor < b.minor ∨ (a.minor = b.minor ∧ a.patch < b.patch)))) := by
  rw [← SemVer.lt_iff, Bool.not_eq_true, Bool.eq_false_iff, ne_eq, Bool.not_eq_true]

theorem SemVer.lt_irrefl (a : SemVer) : SemVer.lt a a = false := by
  rw [SemVer.not_lt_iff]; omega

theorem SemVer.lt_asymm {a b : SemVer} (h : SemVer.lt a b = true) :
    SemVer.lt b a = false := by
  rw [SemVer.lt_iff] at h; rw [SemVer.not_lt_iff]; omega

theorem SemVer.le_trans {a b c : SemVer} (hab : SemVer.lt b a = false)
    (hbc : SemVer.lt c b = false) : SemVer.lt c a = false := by
  rw [SemVer.not_lt_iff] at hab hbc ⊢; omega

theorem SemVer.eq_of_not_lt {a b : SemVer} (hab : SemVer.lt a b = false)
    (hba : SemVer.lt b a = false) : a = b := by
  obtain ⟨a1, a2, a3⟩ := a
  obtain ⟨b1, b2, b3⟩ := b
  rw [SemVer.not_lt_iff] at hab hba
  dsimp only at hab hba
  simp only [SemVer.mk.injEq]
  omega

theorem SemVer.lt_zero (a : SemVer) : SemVer.lt a SemVer.zero = false := by
  rw [SemVer.not_lt_iff]; simp [SemVer.zero]

/-! ### Lemmas about the `sort.Sort` model -/

theorem mem_insertGoRev (less : α → α → Bool) (x : α) (l : List α) (a : α) :
    a ∈ insertGoRev less x l ↔ a = x ∨ a ∈ l := by
  induction l with
  | nil => simp [insertGoRev]
  | cons y ys ih =>
    simp only [insertGoRev]
    split <;> · simp only [List.mem_cons, ih]; try tauto

theorem mem_insertionSortGo (less : α → α → Bool) (l : List α) (a : α) :
    a ∈ insertionSortGo less l ↔ a ∈ l := by
  suffices h : ∀ acc, a ∈ l.foldl (fun acc x => insertGoRev less x acc) acc ↔
      a ∈ acc ∨ a ∈ l by
    simp [insertionSortGo, h]
  induction l with
  | nil => simp
  | cons y ys ih =>
    intro acc
    simp only [List.foldl_cons, ih, mem_insertGoRev, List.mem_cons]
    tauto

/-! ### Lemmas about categorisation and deduplication -/

theorem categoriseInstances_fst_sublist (l : List Instance) :
    (categoriseInstances l).1.Sublist l := by
  induction l with
  | nil => simp [categoriseInstances]
  | cons i rest ih =>
    simp only [categoriseInstances]
    split
    · exact ih.cons₂ i
    · exact ih.cons i

theorem categoriseInstances_snd_sublist (l : List Instance) :
    (categoriseInstances l).2.Sublist l := by
  induction l with
  | nil => simp [categoriseInstances]
  | cons i rest ih =>
    simp only [categoriseInstances]
    split
    · exact ih.cons i
    · exact ih.cons₂ i

theorem removeDuplicatesAux_nodup (l seen : List String) :
    (removeDuplicatesAux l seen).Nodup ∧
      ∀ y ∈ removeDuplicatesAux l seen, seen.contains y = false := by
  induction l generalizing seen with
  | nil => simp [removeDuplicatesAux]
  | cons x rest ih =>
    simp only [removeDuplicatesAux]
    split
    · obtain ⟨h1, h2⟩ := ih seen
      exact ⟨h1, h2⟩
    · rename_i hx
      obtain ⟨h1, h2⟩ := ih (x :: seen)
      refine ⟨List.nodup_cons.mpr ⟨fun hmem => ?_, h1⟩, fun y hy => ?_⟩
      · have := h2 x hmem
        simp at this
      · rcases List.mem_cons.mp hy with rfl | hy'
        · exact Bool.not_eq_true _ ▸ hx
        · have := h2 y hy'
          simp only [List.contains_cons, Bool.or_eq_false_iff] at this
          exact this.2

theorem removeDuplicates_nodup (l : List String) : (removeDuplicates l).Nodup :=
  (removeDuplicatesAux_nodup l []).1

/-! ### Lemmas about `capIds` and `takeAtMost` -/

theorem capIds_some {ids out : List String} {maximum : Int}
    (h : capIds ids maximum = some out) :
    out.Sublist ids ∧ (out.length : Int) ≤ maximum := by
  unfold capIds at h
  split at h
  · cases h
    exact ⟨List.Sublist.refl _, by assumption⟩
  · split at h
    · cases h
      refine ⟨List.take_sublist _ _, ?_⟩
      have hlen := List.length_take_le maximum.toNat ids
      omega
    · cases h

theorem takeAtMost_neg (details : List InstanceDetail) {most : Int} (h : most < 0) :
    takeAtMost details most = none := by
  unfold takeAtMost
  rw [if_neg (by omega), if_neg (by omega)]

theorem takeAtMost_nonneg (details : List InstanceDetail) {most : Int} (h : 0 ≤ most) :
    takeAtMost details most = some (details.take most.toNat) := by
  unfold takeAtMost
  by_cases hle : (details.length : Int) ≤ most
  · rw [if_pos hle, List.take_of_length_le (by omega)]
  · rw [if_neg hle, if_pos h]

/-! ### Lemmas about the highest/lowest version folds -/

theorem foldHighest_not_lt_acc (l : List InstanceDetail) (acc : SemVer) :
    SemVer.lt (foldHighest l acc) acc = false := by
  induction l generalizing acc with
  | nil => exact SemVer.lt_irrefl acc
  | cons d rest ih =>
    simp only [foldHighest, List.foldl_cons] at *
    split
    · rename_i hgt
      exact SemVer.le_trans (SemVer.lt_asymm hgt) (ih d.versionNumber)
    · exact ih acc

theorem foldHighest_ge_mem (l : List InstanceDetail) (acc : SemVer) :
    ∀ d ∈ l, SemVer.lt (foldHighest l acc) d.versionNumber = false := by
  induction l generalizing acc with
  | nil => intro d hd; cases hd
  | cons e rest ih =>
    intro d hd
    simp only [foldHighest, List.foldl_cons] at *
    rcases List.mem_cons.mp hd with rfl | hd'
    · split
      · exact SemVer.le_trans (SemVer.lt_irrefl d.versionNumber)
          (foldHighest_not_lt_acc rest d.versionNumber)
      · rename_i hgt
        have : SemVer.lt acc d.versionNumber = false := by
          simpa [SemVer.gt] using hgt
        exact SemVer.le_trans this (foldHighest_not_lt_acc rest acc)
    · split
      · exact ih e.versionNumber d hd'
      · exact ih acc d hd'

theorem foldHighest_mem_or_acc (l : List InstanceDetail) (acc : SemVer) :
    foldHighest l acc = acc ∨ ∃ d ∈ l, d.versionNumber = foldHighest l acc := by
  induction l generalizing acc with
  | nil => exact Or.inl rfl
  | cons e rest ih =>
    simp only [foldHighest, List.foldl_cons] at *
    split
    · rcases ih e.versionNumber with h | ⟨d, hd, hv⟩
      · exact Or.inr ⟨e, List.mem_cons_self e rest, h.symm⟩
      · exact Or.inr ⟨d, List.mem_cons_of_mem e hd, hv⟩
    · rcases ih acc with h | ⟨d, hd, hv⟩
      · exact Or.inl h
      · exact Or.inr ⟨d, List.mem_cons_of_mem e hd, hv⟩

theorem foldLowest_not_gt_acc (l : List InstanceDetail) (acc : SemVer) :
    SemVer.lt acc (foldLowest l acc) = false := by
  induction l generalizing acc with
  | nil => exact SemVer.lt_irrefl acc
  | cons d rest ih =>
    simp only [foldLowest, List.foldl_cons] at *
    split
    · rename_i hlt
      exact SemVer.le_trans (ih d.versionNumber) (SemVer.lt_asymm hlt)
    · exact ih acc

theorem foldLowest_le_mem (l : List InstanceDetail) (acc : SemVer) :
    ∀ d ∈ l, SemVer.lt d.versionNumber (foldLowest l acc) = false := by
  induction l generalizing acc with
  | nil => intro d hd; cases hd
  | cons e rest ih =>
    intro d hd
    simp only [foldLowest, List.foldl_cons] at *
    rcases List.mem_cons.mp hd with rfl | hd'
    · split
      · exact SemVer.le_trans (foldLowest_not_gt_acc rest d.versionNumber)
          (SemVer.lt_irrefl d.versionNumber)
      · rename_i hlt
        have hda : SemVer.lt d.versionNumber acc = false := by
          simpa using hlt
        exact SemVer.le_trans (foldLowest_not_gt_acc rest acc) hda
    · split
      · exact ih e.versionNumber d hd'
      · exact ih acc d hd'

theorem foldLowest_mem_or_acc (l : List InstanceDetail) (acc : SemVer) :
    foldLowest l acc = acc ∨ ∃ d ∈ l, d.versionNumber = foldLowest l acc := by
  induction l generalizing acc with
  | nil => exact Or.inl rfl
  | cons e rest ih =>
    simp only [foldLowest, List.foldl_cons] at *
    split
    · rcases ih e.versionNumber with h | ⟨d, hd, hv⟩
      · exact Or.inr ⟨e, List.mem_cons_self e rest, h.symm⟩
      · exact Or.inr ⟨d, List.mem_cons_of_mem e hd, hv⟩
    · rcases ih acc with h | ⟨d, hd, hv⟩
      · exact Or.inl h
      · exact Or.inr ⟨d, List.mem_cons_of_mem e hd, hv⟩

/-! ### Counting surviving instances -/

theorem length_le_filter_not_contains (instances : List Instance) (out : List String)
    (hnd : (instances.map Instance.id).Nodup) :
    instances.length ≤
      (instances.filter (fun i => !(out.contains i.id))).length + out.length := by
  have hsplit :=
    @List.length_eq_length_filter_add _ instances (fun i => out.contains i.id)
  have hle : (instances.filter (fun i => out.contains i.id)).length ≤ out.length := by
    have hmap : (instances.map Instance.id).filter (fun s => out.contains s) =
        (instances.filter (fun i => out.contains i.id)).map Instance.id := by
      rw [List.filter_map]
      rfl
    have hnd2 : ((instances.map Instance.id).filter (fun s => out.contains s)).Nodup :=
      hnd.filter _
    have hsub : (instances.map Instance.id).filter (fun s => out.contains s) ⊆ out := by
      intro s hs
      have hc := List.of_mem_filter hs
      simpa using hc
    have := (hnd2.subperm hsub).length_le
    rw [hmap, List.length_map] at this
    exact this
  have hlen2 : (instances.filter (fun i => !(out.contains i.id))).length =
      (instances.filter (fun i => !(fun j => out.contains j.id) i)).length := rfl
  omega

/-! ### The mismatched-IDs loop as a zip -/

theorem mismatchedIdsFrom_zip_aux (instances : List Instance) (canonical : SemVer) :
    ∀ (details : List InstanceDetail) (i : Nat), i + details.length ≤ instances.length →
      mismatchedIdsFrom instances canonical i details =
        some (((details.zip (instances.drop i)).filter
            (fun p => SemVer.lt p.1.versionNumber canonical ||
              SemVer.gt p.1.versionNumber canonical)).map
          (fun p => p.2.id))
  | [], i, _ => by simp [mismatchedIdsFrom]
  | d :: rest, i, h => by
    have hi : i < instances.length := by
      simp only [List.length_cons] at h
      omega
    have hdrop := List.drop_eq_getElem_cons hi
    have hget : instances[i]? = some instances[i] := List.getElem?_eq_getElem hi
    have ih := mismatchedIdsFrom_zip_aux instances canonical rest (i + 1)
      (by simp only [List.length_cons] at h; omega)
    simp only [mismatchedIdsFrom, hdrop, List.zip_cons_cons]
    split
    · rename_i hcond
      rw [hget, ih]
      simp [List.filter_cons, hcond]
    · rename_i hcond
      rw [ih]
      simp only [List.filter_cons]
      rw [if_neg (by simpa using hcond)]

theorem mismatchedIdsFrom_eq_zip (instances : List Instance) (canonical : SemVer)
    (details : List InstanceDetail) (h : details.length ≤ instances.length) :
    mismatchedIdsFrom instances canonical 0 details =
      some (((details.zip instances).filter
          (fun p => SemVer.lt p.1.versionNumber canonical ||
            SemVer.gt p.1.versionNumber canonical)).map
        (fun p => p.2.id)) := by
  have := mismatchedIdsFrom_zip_aux instances canonical details 0 (by omega)
  simpa using this

/-! ### Monadic fold helpers for the terminate loops -/

theorem foldlM_const_of_id {α σ : Type} (f : σ → α → Option σ) (l : List α) (st : σ)
    (h : ∀ s a, a ∈ l → f s a = some s) : l.foldlM f st = some st := by
  induction l generalizing st with
  | nil => rfl
  | cons a rest ih =>
    simp only [List.foldlM_cons, h st a (List.mem_cons_self a rest), Option.bind_some]
    exact ih st (fun s b hb => h s b (List.mem_cons_of_mem a hb))

theorem foldlM_id_or_none {α σ : Type} (f : σ → α → Option σ) (l : List α) (st r : σ)
    (h : ∀ s a, a ∈ l → f s a = some s ∨ f s a = none)
    (hr : l.foldlM f st = some r) : r = st := by
  induction l generalizing st with
  | nil => cases hr; rfl
  | cons a rest ih =>
    rcases h st a (List.mem_cons_self a rest) with hs | hn
    · rw [List.foldlM_cons, hs] at hr
      exact ih st (fun s b hb => h s b (List.mem_cons_of_mem a hb)) hr
    · rw [List.foldlM_cons, hn] at hr
      cases hr

/-! ### Totality of the old-version pipeline for non-negative caps -/

theorem getOldestVersions_isSome (details : List InstanceDetail) {cap : Int}
    (h : 0 ≤ cap) : ∃ r, getOldestVersions details cap = some r := by
  refine ⟨?_, ?_⟩
  · exact (foldLowest details (foldHighest details SemVer.zero),
      foldHighest details SemVer.zero,
      (insertionSortGo detailsLess
        (details.filter
          (fun d => SemVer.lt d.versionNumber (foldHighest details SemVer.zero)))).take
        cap.toNat)
  · simp only [getOldestVersions, takeAtMost_nonneg _ h]
    rfl

theorem getOldestIDs_isSome (cloud : CloudV1) (instances : List Instance) {cap : Int}
    (h : 0 ≤ cap) : ∃ r, getOldestIDs cloud instances cap = some r := by
  unfold getOldestIDs
  cases hd : getDetailsM cloud instances with
  | error e => exact ⟨.error e, rfl⟩
  | ok details =>
    obtain ⟨r, hr⟩ := getOldestVersions_isSome details h
    simp only [hr]
    exact ⟨_, rfl⟩

/-! ### Step lemmas for the terminate loops -/

theorem terminateDecide_isSome (cloud : CloudV1) (p : Params)
    (healthy unhealthy : List Instance)
    (h : p.minimumInstanceCount < healthy.length) :
    ∃ ids, terminateDecide cloud p healthy unhealthy = some ids := by
  unfold terminateDecide
  split
  · obtain ⟨r, hr⟩ := @getOldestIDs_isSome cloud healthy
      ((healthy.length : Int) - (p.minimumInstanceCount : Int)) (by omega)
    rw [hr]
    cases r with
    | error e => exact ⟨[], rfl⟩
    | ok r => exact ⟨r.2.2, rfl⟩
  · exact ⟨_, rfl⟩

theorem terminateStep_dryRun (cloud : CloudV1) (p : Params)
    (hdry : p.isDryRun = true) (st : List String × List (List String))
    (g : AutoScalingGroup) : terminateStep cloud p st g = some st := by
  simp only [terminateStep]
  split
  · rename_i hgate
    obtain ⟨ids, hids⟩ := terminateDecide_isSome cloud p
      (categoriseInstances g.instances).1 (categoriseInstances g.instances).2 hgate
    simp only [hids, hdry, if_true]
  · rfl

theorem terminateTStep_dryRun (cloud : CloudV2) (p : ParamsT) (canonical : SemVer)
    (hdry : p.isDryRun = true) (st : List String × List (List String))
    (g : AutoScalingGroup) :
    terminateTStep cloud p canonical st g = some st ∨
      terminateTStep cloud p canonical st g = none := by
  unfold terminateTStep
  split
  · exact Or.inr rfl
  · split
    · exact Or.inl rfl
    · simp [hdry]

/-! ## Claim C5 -/

/-- C5: the spec claims the comparator on version-annotated instance
details is lexicographic on (version, launchTime), so that a strictly
higher version never sorts first.  The code's `InstanceDetails.Less` is
`version-strictly-lower OR launch-strictly-earlier` with no equal-version
guard, so the entry X with the strictly higher version 2.0.0 but the
earlier launch time compares `Less` than the 1.0.0 entry Y — against the
lexicographic rule (`lexLess`, modelled from the spec, says false), and
against the repository's own test comment that the version "takes
precedence". -/
theorem detailsLess_higher_version_can_precede :
    detailsLess ⟨"X", ⟨2, 0, 0⟩, 0⟩ ⟨"Y", ⟨1, 0, 0⟩, 1⟩ = true ∧
    SemVer.lt ⟨1, 0, 0⟩ ⟨2, 0, 0⟩ = true ∧
    lexLess ⟨"X", ⟨2, 0, 0⟩, 0⟩ ⟨"Y", ⟨1, 0, 0⟩, 1⟩ = false := by decide

/-! ## Claim C8 -/

/-- C8 counterexample: for a negative cap, `takeAtMost` does not return an
empty selection — the slice `details[:most]` panics (modelled `none`), on
the empty and on nonempty detail lists alike, so the claimed totality
fails. -/
theorem takeAtMost_negative_cap_panics :
    takeAtMost [⟨"A", ⟨1, 0, 0⟩, 0⟩] (-1) = none ∧
    takeAtMost [] (-1) = none ∧
    (none : Option (List InstanceDetail)) ≠ some [] := by decide

/-- C8 (amended): for every details list, a negative cap makes `takeAtMost`
fault (Go slice panic, modelled as `none`) — it never treats the cap as
zero or as unbounded — while a non-negative cap returns the first
`min(cap, len(details))` elements. -/
theorem takeAtMost_cases (details : List InstanceDetail) (most : Int) :
    (most < 0 → takeAtMost details most = none) ∧
    (0 ≤ most → takeAtMost details most = some (details.take most.toNat)) :=
  ⟨fun h => takeAtMost_neg details h, fun h => takeAtMost_nonneg details h⟩

/-- C8 witness: the amended theorem applied at a concrete negative and a
concrete non-negative cap. -/
theorem takeAtMost_cases_witness :
    takeAtMost [⟨"A", ⟨1, 0, 0⟩, 0⟩] (-2) = none ∧
    takeAtMost [⟨"A", ⟨1, 0, 0⟩, 0⟩] 3 = some [⟨"A", ⟨1, 0, 0⟩, 0⟩] := by
  refine ⟨(takeAtMost_cases [⟨"A", ⟨1, 0, 0⟩, 0⟩] (-2)).1 (by decide), ?_⟩
  have h := (takeAtMost_cases [⟨"A", ⟨1, 0, 0⟩, 0⟩] 3).2 (by decide)
  simpa using h

/-! ## Claim C6 -/

/-- C6 counterexample: the mismatched loop records `group.Instances[i].ID`
for detail index `i`, not the ID the detail itself describes.  With
instances `[A, B]` and the single (mismatching) detail describing `B`, the
loop records `"A"`, while the spec-modelled `mismatchedBySpec` — IDs of the
instances the details describe — gives `"B"`. -/
theorem mismatchedIdsFrom_wrong_id :
    mismatchedIdsFrom
      [⟨"A", "Healthy", "InService"⟩, ⟨"B", "Healthy", "InService"⟩] ⟨1, 0, 0⟩ 0
      [⟨"B", ⟨2, 0, 0⟩, 0⟩] = some ["A"] ∧
    mismatchedBySpec [⟨"B", ⟨2, 0, 0⟩, 0⟩] ⟨1, 0, 0⟩ = ["B"] ∧
    (["A"] : List String) ≠ ["B"] := by decide

/-- C6 (amended): the mismatched set collects, for each index `i` whose
detail is strictly below or strictly above the canonical version, the ID of
the instance at the same index `i` of `group.Instances` (which coincides
with the detail's own instance only when the two lists are aligned
index-wise); details equal to the canonical version contribute nothing, and
when the detail list is longer than the instance list a mismatching excess
detail makes the loop panic. -/
theorem mismatchedIdsFrom_pairs_by_index (instances : List Instance)
    (canonical : SemVer) (details : List InstanceDetail)
    (h : details.length ≤ instances.length) :
    mismatchedIdsFrom instances canonical 0 details =
      some (((details.zip instances).filter
          (fun p => SemVer.lt p.1.versionNumber canonical ||
            SemVer.gt p.1.versionNumber canonical)).map
        (fun p => p.2.id)) :=
  mismatchedIdsFrom_eq_zip instances canonical details h

/-- C6 witness: the amended theorem applied to a concrete misaligned input;
the recorded ID is the one at the detail's index. -/
theorem mismatchedIdsFrom_pairs_by_index_witness :
    mismatchedIdsFrom
      [⟨"A", "Healthy", "InService"⟩, ⟨"B", "Healthy", "InService"⟩] ⟨1, 0, 0⟩ 0
      [⟨"B", ⟨2, 0, 0⟩, 0⟩] = some ["A"] :=
  (mismatchedIdsFrom_pairs_by_index
    [⟨"A", "Healthy", "InService"⟩, ⟨"B", "Healthy", "InService"⟩] ⟨1, 0, 0⟩
    [⟨"B", ⟨2, 0, 0⟩, 0⟩] (by decide)).trans (by decide)

/-! ## Claim C9 -/

/-- C9 counterexample: a name appearing twice in the filter duplicates the
matched group in the output — `filterByName` has no break or dedup in its
nested loops, against the claim that a repeated name never duplicates a
group. -/
theorem filterByName_duplicates :
    filterByName [⟨"a", [], []⟩] ["a", "a"] = [⟨"a", [], []⟩, ⟨"a", [], []⟩] ∧
    ([⟨"a", [], []⟩, ⟨"a", [], []⟩] : List AutoScalingGroup) ≠ [⟨"a", [], []⟩] := by
  decide

/-- Helper for the filter characterisation: a flat-map of singleton-or-empty
equals a filtered map. -/
theorem flatMap_ite_singleton (names : List String) (c : String → Bool)
    (g : AutoScalingGroup) :
    names.flatMap (fun n => if c n then [g] else []) =
      (names.filter c).map (fun _ => g) := by
  induction names with
  | nil => rfl
  | cons n rest ih =>
    simp only [List.flatMap_cons, List.filter_cons]
    split <;> simp [ih]

/-- C9 (amended): with an empty filter `filterByName` returns all groups
unchanged; with a non-empty filter it returns, in the original group order,
one copy of each group per case-insensitively matching filter entry — so a
group is in the output iff it is in the input and some entry matches it,
and duplicate filter entries duplicate the matched group rather than being
collapsed. -/
theorem filterByName_characterisation (grps : List AutoScalingGroup)
    (names : List String) :
    (names = [] → filterByName grps names = grps) ∧
    (names ≠ [] → filterByName grps names =
      grps.flatMap (fun g =>
        (names.filter (fun n => strEqualFold g.name n)).map (fun _ => g))) ∧
    ∀ g, g ∈ filterByName grps names ↔
      g ∈ grps ∧ (names = [] ∨ ∃ n ∈ names, strEqualFold g.name n = true) := by
  refine ⟨?_, ?_, ?_⟩
  · intro h
    subst h
    rfl
  · intro h
    unfold filterByName
    rw [if_neg (by simpa [List.length_eq_zero] using h)]
    simp only [flatMap_ite_singleton]
  · intro g
    by_cases hn : names = []
    · subst hn
      simp [filterByName]
    · unfold filterByName
      rw [if_neg (by simpa [List.length_eq_zero] using hn)]
      simp only [hn, false_or]
      constructor
      · intro hg
        obtain ⟨a, ha, hg'⟩ := List.mem_flatMap.mp hg
        obtain ⟨n, hn', hg''⟩ := List.mem_flatMap.mp hg'
        by_cases hc : strEqualFold a.name n = true
        · rw [if_pos hc] at hg''
          rcases List.mem_singleton.mp hg''
          exact ⟨ha, n, hn', hc⟩
        · rw [if_neg hc] at hg''
          cases hg''
      · rintro ⟨hg, n, hn', hc⟩
        refine List.mem_flatMap.mpr ⟨g, hg, List.mem_flatMap.mpr ⟨n, hn', ?_⟩⟩
        rw [if_pos hc]
        exact List.mem_singleton.mpr rfl

/-- C9 witness: the characterisation applied to a concrete non-empty filter
with a repeated entry, and to the empty filter. -/
theorem filterByName_characterisation_witness :
    filterByName [⟨"a", [], []⟩] ["a", "a"] =
      [⟨"a", [], []⟩, ⟨"a", [], []⟩] ∧
    filterByName [⟨"a", [], []⟩] [] = [⟨"a", [], []⟩] := by
  constructor
  · have h := (filterByName_characterisation [⟨"a", [], []⟩] ["a", "a"]).2.1
      (by decide)
    rw [h]
    decide
  · exact (filterByName_characterisation [⟨"a", [], []⟩] []).1 rfl

/-! ## Claim C10 -/

/-- C10: in `AWSProvider.GetInstanceDetails`, failing probes only omit
their instance's entry, but if no probe at all succeeds the function
returns an error (so the caller skips the whole group) rather than an
empty details list: all probes failing yields the error, and any probe
succeeding yields the list of exactly the successful probe results in
input order. -/
theorem getInstanceDetailsP2_all_fail_errors
    (gd : String → Except Unit InstanceDetail) (instances : List AwsInstance) :
    ((∀ i ∈ instances, (gd i.instanceId).toOption = none) →
      getInstanceDetailsP2 gd instances = .error ()) ∧
    ((∃ i ∈ instances, (gd i.instanceId).toOption ≠ none) →
      getInstanceDetailsP2 gd instances =
        .ok (instances.filterMap (fun i => (gd i.instanceId).toOption))) := by
  constructor
  · intro h
    have hnil : instances.filterMap (fun i => (gd i.instanceId).toOption) = [] := by
      rw [List.filterMap_eq_nil_iff]
      exact h
    simp [getInstanceDetailsP2, hnil]
  · rintro ⟨i, hi, hne⟩
    obtain ⟨d, hd⟩ := Option.ne_none_iff_exists'.mp hne
    have hmem : d ∈ instances.filterMap (fun i => (gd i.instanceId).toOption) :=
      List.mem_filterMap.mpr ⟨i, hi, hd⟩
    have hpos : 0 < (instances.filterMap (fun i => (gd i.instanceId).toOption)).length :=
      List.length_pos_of_mem hmem
    unfold getInstanceDetailsP2
    rw [if_neg (by omega)]

/-- C10 witness: both directions applied at a concrete probe oracle — every
probe failing gives the error; a failing probe is merely omitted when
another succeeds. -/
theorem getInstanceDetailsP2_all_fail_errors_witness :
    getInstanceDetailsP2
      (fun s => if s == "good" then .ok ⟨"good", ⟨1, 0, 0⟩, 0⟩ else .error ())
      [⟨"bad"⟩] = .error () ∧
    getInstanceDetailsP2
      (fun s => if s == "good" then .ok ⟨"good", ⟨1, 0, 0⟩, 0⟩ else .error ())
      [⟨"bad"⟩, ⟨"good"⟩] = .ok [⟨"good", ⟨1, 0, 0⟩, 0⟩] := by
  constructor
  · exact (getInstanceDetailsP2_all_fail_errors _ [⟨"bad"⟩]).1 (by decide)
  · have h := (getInstanceDetailsP2_all_fail_errors
      (fun s => if s == "good" then .ok ⟨"good", ⟨1, 0, 0⟩, 0⟩ else .error ())
      [⟨"bad"⟩, ⟨"good"⟩]).2 ⟨⟨"good"⟩, by decide, by decide⟩
    rw [h]
    rfl

/-! ## Claim C2 -/

/-- C2 counterexample: the claimed size bound
`len(result) <= len(group.instances) - minimumInstanceCount` is an integer
inequality and fails when the minimum exceeds the group size: for a group
with one (unhealthy) instance and minimum 2, the selector returns the empty
set, whose length 0 is not at most `1 - 2 = -1`. -/
theorem getTargetInstancesP3_size_bound_fails :
    getTargetInstancesP3 ⟨"g", [⟨"C", "Healthy", "OutOfService"⟩], []⟩ ⟨1, 0, 0⟩ 2 =
      some [] ∧
    ¬((([] : List String).length : Int) ≤
        (([⟨"C", "Healthy", "OutOfService"⟩] : List Instance).length : Int) - 2) := by
  decide

/-- C2 (amended): whenever `minimumInstanceCount` is at most the group
size, any termination set the selector returns has no duplicate IDs and has
size at most `len(group.instances) - minimumInstanceCount`; the
no-duplicates half needs no hypothesis at all, while the size bound is
violated (only) in the degenerate regime `minimumInstanceCount >
len(group.instances)`, where the empty set is returned. -/
theorem getTargetInstancesP3_nodup_and_size (group : AutoScalingGroup)
    (canonical : SemVer) (m : Nat) (hm : m ≤ group.instances.length)
    (out : List String) (hout : getTargetInstancesP3 group canonical m = some out) :
    out.Nodup ∧ (out.length : Int) ≤ (group.instances.length : Int) - (m : Int) := by
  simp only [getTargetInstancesP3] at hout
  split at hout
  · cases hout
    refine ⟨List.nodup_nil, ?_⟩
    simp only [List.length_nil, Nat.cast_zero]
    omega
  · split at hout
    · cases hout
      refine ⟨List.nodup_nil, ?_⟩
      simp only [List.length_nil, Nat.cast_zero]
      omega
    · unfold getTargetInstancesP3Core at hout
      split at hout
      · cases hout
      · split at hout
        · cases hout
          refine ⟨List.nodup_nil, ?_⟩
          simp only [List.length_nil, Nat.cast_zero]
          omega
        · obtain ⟨hsub, hlen⟩ := capIds_some hout
          exact ⟨hsub.nodup (removeDuplicates_nodup _), hlen⟩

/-- C2 witness: the amended theorem applied to a concrete two-instance
group with one mismatching version. -/
theorem getTargetInstancesP3_nodup_and_size_witness :
    getTargetInstancesP3
      ⟨"g", [⟨"A", "Healthy", "InService"⟩, ⟨"B", "Healthy", "InService"⟩],
        [⟨"A", ⟨2, 0, 0⟩, 0⟩, ⟨"B", ⟨1, 0, 0⟩, 0⟩]⟩ ⟨1, 0, 0⟩ 1 = some ["A"] ∧
    (["A"] : List String).Nodup ∧
    ((["A"] : List String).length : Int) ≤
      (([⟨"A", "Healthy", "InService"⟩, ⟨"B", "Healthy", "InService"⟩] :
          List Instance).length : Int) - (1 : Nat) :=
  ⟨by decide,
    getTargetInstancesP3_nodup_and_size
      ⟨"g", [⟨"A", "Healthy", "InService"⟩, ⟨"B", "Healthy", "InService"⟩],
        [⟨"A", ⟨2, 0, 0⟩, 0⟩, ⟨"B", ⟨1, 0, 0⟩, 0⟩]⟩ ⟨1, 0, 0⟩ 1 (by decide)
      ["A"] (by decide)⟩

/-! ## Claim C3 -/

/-- C3 counterexample: the claim says the selector abstains only when
unhealthy instances exist AND version coverage of the healthy set is
incomplete, and proceeds to the mismatch computation when coverage is
complete.  In the code the two conditions are joined by OR: with healthy
`[A, B]` fully covered by two version details and the unhealthy `C`
present, the selector abstains and returns empty, while the claimed
continuation (the mismatch computation) would return `["A", "B"]`. -/
theorem getTargetInstancesP3_abstains_despite_coverage :
    getTargetInstancesP3
      ⟨"g", [⟨"A", "Healthy", "InService"⟩, ⟨"B", "Healthy", "InService"⟩,
             ⟨"C", "Healthy", "OutOfService"⟩],
        [⟨"A", ⟨2, 0, 0⟩, 0⟩, ⟨"B", ⟨2, 0, 0⟩, 0⟩]⟩ ⟨1, 0, 0⟩ 1 = some [] ∧
    getTargetInstancesP3Core
      ⟨"g", [⟨"A", "Healthy", "InService"⟩, ⟨"B", "Healthy", "InService"⟩,
             ⟨"C", "Healthy", "OutOfService"⟩],
        [⟨"A", ⟨2, 0, 0⟩, 0⟩, ⟨"B", ⟨2, 0, 0⟩, 0⟩]⟩ ⟨1, 0, 0⟩ 1
      (categoriseInstances
        [⟨"A", "Healthy", "InService"⟩, ⟨"B", "Healthy", "InService"⟩,
         ⟨"C", "Healthy", "OutOfService"⟩]).1 = some ["A", "B"] ∧
    (categoriseInstances
      [⟨"A", "Healthy", "InService"⟩, ⟨"B", "Healthy", "InService"⟩,
       ⟨"C", "Healthy", "OutOfService"⟩]).1.length =
      ([⟨"A", ⟨2, 0, 0⟩, 0⟩, ⟨"B", ⟨2, 0, 0⟩, 0⟩] : List InstanceDetail).length ∧
    some ([] : List String) ≠ some ["A", "B"] := by decide

/-- C3 (amended): past the safety gate, the abstention condition is a
disjunction — the selector returns empty as soon as any unhealthy instance
exists OR the number of version details differs from the healthy count; it
proceeds to the mismatch computation exactly when no instance is unhealthy
AND the detail count equals the healthy count. -/
theorem getTargetInstancesP3_abstention_disjunction (group : AutoScalingGroup)
    (canonical : SemVer) (m : Nat)
    (hgate : m < (categoriseInstances group.instances).1.length) :
    ((0 < (categoriseInstances group.instances).2.length ∨
        (categoriseInstances group.instances).1.length ≠
          group.instanceDetails.length) →
      getTargetInstancesP3 group canonical m = some []) ∧
    ((categoriseInstances group.instances).2.length = 0 ∧
        (categoriseInstances group.instances).1.length =
          group.instanceDetails.length →
      getTargetInstancesP3 group canonical m =
        getTargetInstancesP3Core group canonical m
          (categoriseInstances group.instances).1) := by
  constructor
  · intro h
    simp only [getTargetInstancesP3]
    rw [if_neg (by omega), if_pos h]
  · intro h
    simp only [getTargetInstancesP3]
    rw [if_neg (by omega), if_neg (by omega)]

/-- C3 witness: the amended theorem applied to the fully-covered group with
an unhealthy instance (abstention fires through the left disjunct) and to
an all-healthy fully-covered group (which proceeds). -/
theorem getTargetInstancesP3_abstention_disjunction_witness :
    getTargetInstancesP3
      ⟨"g", [⟨"A", "Healthy", "InService"⟩, ⟨"B", "Healthy", "InService"⟩,
             ⟨"C", "Healthy", "OutOfService"⟩],
        [⟨"A", ⟨2, 0, 0⟩, 0⟩, ⟨"B", ⟨2, 0, 0⟩, 0⟩]⟩ ⟨1, 0, 0⟩ 1 = some [] ∧
    getTargetInstancesP3
      ⟨"g", [⟨"A", "Healthy", "InService"⟩, ⟨"B", "Healthy", "InService"⟩],
        [⟨"A", ⟨2, 0, 0⟩, 0⟩, ⟨"B", ⟨2, 0, 0⟩, 0⟩]⟩ ⟨1, 0, 0⟩ 1 =
      getTargetInstancesP3Core
        ⟨"g", [⟨"A", "Healthy", "InService"⟩, ⟨"B", "Healthy", "InService"⟩],
          [⟨"A", ⟨2, 0, 0⟩, 0⟩, ⟨"B", ⟨2, 0, 0⟩, 0⟩]⟩ ⟨1, 0, 0⟩ 1
        (categoriseInstances
          [⟨"A", "Healthy", "InService"⟩, ⟨"B", "Healthy", "InService"⟩]).1 :=
  ⟨(getTargetInstancesP3_abstention_disjunction
      ⟨"g", [⟨"A", "Healthy", "InService"⟩, ⟨"B", "Healthy", "InService"⟩,
             ⟨"C", "Healthy", "OutOfService"⟩],
        [⟨"A", ⟨2, 0, 0⟩, 0⟩, ⟨"B", ⟨2, 0, 0⟩, 0⟩]⟩ ⟨1, 0, 0⟩ 1 (by decide)).1
      (by decide),
    (getTargetInstancesP3_abstention_disjunction
      ⟨"g", [⟨"A", "Healthy", "InService"⟩, ⟨"B", "Healthy", "InService"⟩],
        [⟨"A", ⟨2, 0, 0⟩, 0⟩, ⟨"B", ⟨2, 0, 0⟩, 0⟩]⟩ ⟨1, 0, 0⟩ 1 (by decide)).2
      (by decide)⟩

/-! ## Claim C7 -/

/-- C7 counterexample: `getOldestVersions` does return highest/lowest as
claimed, but the selection is not taken in (version, launchTime)
lexicographic order: with sub-highest entries A (1.0.0, launched at 5) and
B (2.0.0, launched at 0), the implementation comparator sorts B first
(earlier launch time beats lower version), so cap 1 selects B, while the
spec-modelled `selectOldestSpec` selects A. -/
theorem getOldestVersions_not_lexicographic :
    getOldestVersions
      [⟨"A", ⟨1, 0, 0⟩, 5⟩, ⟨"B", ⟨2, 0, 0⟩, 0⟩, ⟨"C", ⟨3, 0, 0⟩, 9⟩] 1 =
      some (⟨1, 0, 0⟩, ⟨3, 0, 0⟩, [⟨"B", ⟨2, 0, 0⟩, 0⟩]) ∧
    selectOldestSpec
      [⟨"A", ⟨1, 0, 0⟩, 5⟩, ⟨"B", ⟨2, 0, 0⟩, 0⟩, ⟨"C", ⟨3, 0, 0⟩, 9⟩] 1 =
      (⟨1, 0, 0⟩, ⟨3, 0, 0⟩, [⟨"A", ⟨1, 0, 0⟩, 5⟩]) ∧
    ([⟨"B", ⟨2, 0, 0⟩, 0⟩] : List InstanceDetail) ≠ [⟨"A", ⟨1, 0, 0⟩, 5⟩] := by
  decide

/-- C7 (amended): for a non-negative cap, `getOldestVersions` returns
`highest` = the maximum version across the details (zero sentinel on the
empty list, and attained by some detail otherwise), `lowest` = the minimum
version (likewise), and a selection of at most `cap` entries, each drawn
from the details and of version strictly below `highest`, equal to the
first `min(cap, len(old))` elements of the sub-highest subsequence sorted
by the implementation's comparator (version-lower OR launch-earlier), not
by the lexicographic (version, launchTime) order. -/
theorem getOldestVersions_bounds (details : List InstanceDetail) (cap : Int)
    (hcap : 0 ≤ cap) (lo hi : SemVer) (sel : List InstanceDetail)
    (hres : getOldestVersions details cap = some (lo, hi, sel)) :
    (∀ d ∈ details, SemVer.gt d.versionNumber hi = false) ∧
    (∀ d ∈ details, SemVer.lt d.versionNumber lo = false) ∧
    (details = [] → lo = SemVer.zero ∧ hi = SemVer.zero) ∧
    (details ≠ [] → (∃ d ∈ details, d.versionNumber = hi) ∧
        ∃ d ∈ details, d.versionNumber = lo) ∧
    (sel.length : Int) ≤ cap ∧
    (∀ d ∈ sel, d ∈ details ∧ SemVer.lt d.versionNumber hi = true) ∧
    sel = (insertionSortGo detailsLess
        (details.filter (fun d => SemVer.lt d.versionNumber hi))).take cap.toNat := by
  have heq : getOldestVersions details cap =
      some (foldLowest details (foldHighest details SemVer.zero),
        foldHighest details SemVer.zero,
        (insertionSortGo detailsLess
          (details.filter
            (fun d => SemVer.lt d.versionNumber (foldHighest details SemVer.zero)))).take
          cap.toNat) := by
    simp only [getOldestVersions, takeAtMost_nonneg _ hcap]
    rfl
  rw [heq] at hres
  simp only [Option.some.injEq, Prod.mk.injEq] at hres
  obtain ⟨hlo, hhi, hsel⟩ := hres
  subst hlo
  subst hhi
  subst hsel
  refine ⟨?_, ?_, ?_, ?_, ?_, ?_, rfl⟩
  · intro d hd
    simpa [SemVer.gt] using foldHighest_ge_mem details SemVer.zero d hd
  · intro d hd
    exact foldLowest_le_mem details _ d hd
  · intro h
    subst h
    exact ⟨rfl, rfl⟩
  · intro hne
    obtain ⟨d0, hd0⟩ := List.exists_mem_of_ne_nil details hne
    have hhiattain : ∃ d ∈ details, d.versionNumber = foldHighest details SemVer.zero := by
      rcases foldHighest_mem_or_acc details SemVer.zero with hacc | hmem
      · refine ⟨d0, hd0, ?_⟩
        rw [hacc]
        refine SemVer.eq_of_not_lt (SemVer.lt_zero _) ?_
        have := foldHighest_ge_mem details SemVer.zero d0 hd0
        rwa [hacc] at this
      · exact hmem
    refine ⟨hhiattain, ?_⟩
    rcases foldLowest_mem_or_acc details (foldHighest details SemVer.zero) with hacc | hmem
    · obtain ⟨d1, hd1, hv1⟩ := hhiattain
      refine ⟨d1, hd1, ?_⟩
      rw [hacc]
      exact hv1
    · exact hmem
  · have := List.length_take_le cap.toNat
      (insertionSortGo detailsLess
        (details.filter (fun d => SemVer.lt d.versionNumber (foldHighest details SemVer.zero))))
    omega
  · intro d hd
    have hd1 : d ∈ insertionSortGo detailsLess
        (details.filter
          (fun d => SemVer.lt d.versionNumber (foldHighest details SemVer.zero))) :=
      (List.take_sublist _ _).subset hd
    have hd2 := (mem_insertionSortGo _ _ _).mp hd1
    have hd3 := List.mem_filter.mp hd2
    exact ⟨hd3.1, hd3.2⟩

/-- C7 witness: the amended theorem applied at the concrete three-detail
input with cap 1 — the selection fits the cap and the highest version is
not exceeded. -/
theorem getOldestVersions_bounds_witness :
    (([⟨"B", ⟨2, 0, 0⟩, 0⟩] : List InstanceDetail).length : Int) ≤ 1 ∧
    SemVer.gt (⟨2, 0, 0⟩ : SemVer) ⟨3, 0, 0⟩ = false := by
  have h := getOldestVersions_bounds
    [⟨"A", ⟨1, 0, 0⟩, 5⟩, ⟨"B", ⟨2, 0, 0⟩, 0⟩, ⟨"C", ⟨3, 0, 0⟩, 9⟩] 1 (by decide)
    ⟨1, 0, 0⟩ ⟨3, 0, 0⟩ [⟨"B", ⟨2, 0, 0⟩, 0⟩] (by decide)
  exact ⟨h.2.2.2.2.1, h.1 ⟨"B", ⟨2, 0, 0⟩, 0⟩ (by decide)⟩

/-! ## Claim C1 -/

/-- C1 counterexample: with healthy A, B, unhealthy C, all three reported
at version 2.0.0 against canonical 1.0.0 and minimum 1, the selector's cap
(`len(instances) - minimum = 2`) truncates the candidate list [A, B, C] to
[A, B] — terminating both healthy instances and keeping only the unhealthy
C, so the number of healthy instances not in the termination set is 0,
below the minimum 1. -/
theorem getTargetInstancesP4_floor_violated :
    getTargetInstancesP4
      ⟨"g", [⟨"A", "Healthy", "InService"⟩, ⟨"B", "Healthy", "InService"⟩,
             ⟨"C", "Healthy", "OutOfService"⟩],
        [⟨"A", ⟨2, 0, 0⟩, 0⟩, ⟨"B", ⟨2, 0, 0⟩, 0⟩, ⟨"C", ⟨2, 0, 0⟩, 0⟩]⟩
      ⟨1, 0, 0⟩ 1 = some ["A", "B"] ∧
    ((categoriseInstances
        [⟨"A", "Healthy", "InService"⟩, ⟨"B", "Healthy", "InService"⟩,
         ⟨"C", "Healthy", "OutOfService"⟩]).1.filter
      (fun i => !((["A", "B"] : List String).contains i.id))).length < 1 := by
  decide

/-- C1 (amended): for a group whose instance IDs are distinct, whenever the
selector returns without fault at least `min(minimumInstanceCount,
len(group.instances))` of the group's instances survive outside the
termination set — the floor counts surviving instances of any health, not
surviving healthy instances, and the healthy-only floor of the claim can be
violated. -/
theorem getTargetInstancesP4_keeps_min_instances (group : AutoScalingGroup)
    (canonical : SemVer) (m : Nat)
    (hnd : (group.instances.map Instance.id).Nodup) (out : List String)
    (hout : getTargetInstancesP4 group canonical m = some out) :
    Nat.min m group.instances.length ≤
      (group.instances.filter (fun i => !(out.contains i.id))).length := by
  have hcount := length_le_filter_not_contains group.instances out hnd
  have hminle1 : Nat.min m group.instances.length ≤ m := Nat.min_le_left _ _
  have hminle2 : Nat.min m group.instances.length ≤ group.instances.length :=
    Nat.min_le_right _ _
  simp only [getTargetInstancesP4] at hout
  split at hout
  · cases hout
    rw [List.filter_eq_self.mpr (by intro a _; simp)]
    omega
  · rename_i hgate
    have hhl : (categoriseInstances group.instances).1.length ≤ group.instances.length :=
      (categoriseInstances_fst_sublist group.instances).length_le
    have hm : m ≤ group.instances.length := by omega
    split at hout
    · exact absurd hout (by simp)
    · split at hout
      · obtain ⟨hsub, hlen⟩ := capIds_some hout
        omega
      · obtain ⟨hsub, hlen⟩ := capIds_some hout
        omega

/-- C1 witness: the amended theorem applied to the counterexample group —
one of the three distinct-ID instances (the unhealthy C) survives, meeting
the all-instances floor even as the healthy floor is broken. -/
theorem getTargetInstancesP4_keeps_min_instances_witness :
    Nat.min 1
        ([⟨"A", "Healthy", "InService"⟩, ⟨"B", "Healthy", "InService"⟩,
          ⟨"C", "Healthy", "OutOfService"⟩] : List Instance).length ≤
      (([⟨"A", "Healthy", "InService"⟩, ⟨"B", "Healthy", "InService"⟩,
          ⟨"C", "Healthy", "OutOfService"⟩] : List Instance).filter
        (fun i => !((["A", "B"] : List String).contains i.id))).length :=
  getTargetInstancesP4_keeps_min_instances
    ⟨"g", [⟨"A", "Healthy", "InService"⟩, ⟨"B", "Healthy", "InService"⟩,
           ⟨"C", "Healthy", "OutOfService"⟩],
      [⟨"A", ⟨2, 0, 0⟩, 0⟩, ⟨"B", ⟨2, 0, 0⟩, 0⟩, ⟨"C", ⟨2, 0, 0⟩, 0⟩]⟩
    ⟨1, 0, 0⟩ 1 (by decide) ["A", "B"] (by decide)

/-! ## Claim C4 -/

/-- C4 counterexample: in main.go's `terminate` the decision IDs are
appended to the returned accumulator before `TerminateInstances` is called,
so when the call fails (`terminateOk` constantly false here) the group's
contribution is not empty: the run returns `["A", "B"]` and the trace shows
the failed call, against the claim that a failed group contributes
nothing. -/
theorem terminate_failure_still_returns_ids :
    terminate
      ⟨.ok [⟨"g", [⟨"A", "Healthy", "InService"⟩, ⟨"B", "Healthy", "InService"⟩], []⟩],
        fun _ => .error (), fun _ => false⟩
      ⟨false, 0, false, []⟩ = some (["A", "B"], [["A", "B"]]) ∧
    (["A", "B"] : List String) ≠ [] := by decide

/-- C4 (amended): dry-run suppression holds in both variants — under
`isDryRun` neither `terminate` (main.go) nor `Terminate` (terminator.go)
ever invokes the terminate collaborator, and both return an empty
terminated list.  Without dry-run the variants differ: `Terminate` appends
a group's targets only when its `TerminateInstances` call succeeds, a
failing group contributing nothing while processing continues to the
remaining groups (third conjunct: the failed `g1` contributes nothing, the
succeeding `g2` contributes `t2`, and both calls appear in the trace);
`terminate` appends the decision IDs before the call, so a group's IDs
appear in the returned list regardless of the call's outcome (fourth
conjunct: the step's result does not depend on `cloud.terminateOk`, which
is unconstrained). -/
theorem terminate_dryRun_and_failure :
    (∀ (cloud : CloudV1) (p : Params), p.isDryRun = true →
      terminate cloud p = some ([], [])) ∧
    (∀ (cloud : CloudV2) (p : ParamsT) (r : List String × List (List String)),
      p.isDryRun = true → TerminateT cloud p = some r → r = ([], [])) ∧
    (∀ (cloud : CloudV2) (p : ParamsT) (c : SemVer) (g1 g2 : AutoScalingGroup)
      (t1 t2 : List String),
      cloud.groups = .ok [g1, g2] → p.canonical = some c → p.isDryRun = false →
      getTargetInstancesP3 g1 c p.minimumInstanceCount = some t1 → t1 ≠ [] →
      getTargetInstancesP3 g2 c p.minimumInstanceCount = some t2 → t2 ≠ [] →
      cloud.terminateOk t1 = false → cloud.terminateOk t2 = true →
      TerminateT cloud p = some (t2, [t1, t2])) ∧
    (∀ (cloud : CloudV1) (p : Params) (st : List String × List (List String))
      (g : AutoScalingGroup),
      p.isDryRun = false → p.onlyTerminateOldVersions = false →
      p.minimumInstanceCount < (categoriseInstances g.instances).1.length →
      terminateStep cloud p st g =
        some (st.1 ++ rollingIds g p, st.2 ++ [rollingIds g p])) := by
  refine ⟨?_, ?_, ?_, ?_⟩
  · intro cloud p hdry
    unfold terminate
    cases cloud.groups with
    | error e => rfl
    | ok allGroups =>
      exact foldlM_const_of_id _ _ _
        (fun s a _ => terminateStep_dryRun cloud p hdry s a)
  · intro cloud p r hdry hr
    unfold TerminateT at hr
    cases hg : cloud.groups with
    | error e =>
      rw [hg] at hr
      cases hr
      rfl
    | ok groups =>
      rw [hg] at hr
      cases hc : p.canonical with
      | none =>
        rw [hc] at hr
        cases hr
        rfl
      | some canonical =>
        rw [hc] at hr
        exact foldlM_id_or_none _ _ _ _
          (fun s a _ => terminateTStep_dryRun cloud p canonical hdry s a) hr
  · intro cloud p c g1 g2 t1 t2 hg hc hdry ht1 hne1 ht2 hne2 hok1 hok2
    have hl1 : ¬(t1.length ≤ 0) := by
      simp only [Nat.le_zero, List.length_eq_zero]
      exact hne1
    have hl2 : ¬(t2.length ≤ 0) := by
      simp only [Nat.le_zero, List.length_eq_zero]
      exact hne2
    unfold TerminateT
    rw [hg, hc]
    simp only [List.foldlM_cons, List.foldlM_nil]
    unfold terminateTStep
    rw [ht1]
    simp only [if_neg hl1, hdry, Bool.false_eq_true, if_false, hok1, Bool.false_eq_true,
      if_false, Option.bind_some]
    rw [ht2]
    simp only [if_neg hl2, hok2, if_true]
    simp
  · intro cloud p st g hdry honly hgate
    simp only [terminateStep, if_pos hgate]
    have hdec : terminateDecide cloud p (categoriseInstances g.instances).1
        (categoriseInstances g.instances).2 =
        some (rollingIds g p) := by
      unfold terminateDecide
      rw [honly]
      simp [rollingIds]
    simp only [hdec, hdry, Bool.false_eq_true, if_false]

/-- C4 witness: all four conjuncts of the amended theorem applied at
concrete clouds and parameters — a dry run of each variant, a two-group
non-dry run of `Terminate` with the first call failing, and a non-dry
rolling step of `terminate` under an always-failing collaborator. -/
theorem terminate_dryRun_and_failure_witness :
    terminate
      ⟨.ok [⟨"g", [⟨"A", "Healthy", "InService"⟩], []⟩], fun _ => .error (),
        fun _ => true⟩ ⟨true, 0, false, []⟩ = some ([], []) ∧
    (([], []) : List String × List (List String)) = ([], []) ∧
    TerminateT
      ⟨.ok [⟨"g1", [⟨"X", "Healthy", "InService"⟩, ⟨"Y", "Healthy", "InService"⟩],
          [⟨"X", ⟨2, 0, 0⟩, 0⟩, ⟨"Y", ⟨1, 0, 0⟩, 0⟩]⟩,
        ⟨"g2", [⟨"D", "Healthy", "InService"⟩, ⟨"E", "Healthy", "InService"⟩],
          [⟨"D", ⟨2, 0, 0⟩, 0⟩, ⟨"E", ⟨1, 0, 0⟩, 0⟩]⟩],
        fun ts => ts == ["D"]⟩
      ⟨false, 1, some ⟨1, 0, 0⟩⟩ = some (["D"], [["X"], ["D"]]) ∧
    terminateStep
      ⟨.ok [], fun _ => .error (), fun _ => false⟩ ⟨false, 0, false, []⟩ ([], [])
      ⟨"g", [⟨"A", "Healthy", "InService"⟩], []⟩ =
      some
        (([] : List String) ++
          rollingIds ⟨"g", [⟨"A", "Healthy", "InService"⟩], []⟩ ⟨false, 0, false, []⟩,
        ([] : List (List String)) ++
          [rollingIds ⟨"g", [⟨"A", "Healthy", "InService"⟩], []⟩ ⟨false, 0, false, []⟩]) := by
  refine ⟨?_, ?_, ?_, ?_⟩
  · exact terminate_dryRun_and_failure.1
      ⟨.ok [⟨"g", [⟨"A", "Healthy", "InService"⟩], []⟩], fun _ => .error (),
        fun _ => true⟩ ⟨true, 0, false, []⟩ rfl
  · exact terminate_dryRun_and_failure.2.1
      ⟨.ok [], fun _ => true⟩ ⟨true, 0, some ⟨1, 0, 0⟩⟩ ([], []) rfl (by decide)
  · exact terminate_dryRun_and_failure.2.2.1
      ⟨.ok [⟨"g1", [⟨"X", "Healthy", "InService"⟩, ⟨"Y", "Healthy", "InService"⟩],
          [⟨"X", ⟨2, 0, 0⟩, 0⟩, ⟨"Y", ⟨1, 0, 0⟩, 0⟩]⟩,
        ⟨"g2", [⟨"D", "Healthy", "InService"⟩, ⟨"E", "Healthy", "InService"⟩],
          [⟨"D", ⟨2, 0, 0⟩, 0⟩, ⟨"E", ⟨1, 0, 0⟩, 0⟩]⟩],
        fun ts => ts == ["D"]⟩
      ⟨false, 1, some ⟨1, 0, 0⟩⟩ ⟨1, 0, 0⟩ _ _ ["X"] ["D"] rfl rfl rfl
      (by decide) (by decide) (by decide) (by decide) (by decide) (by decide)
  · exact terminate_dryRun_and_failure.2.2.2
      ⟨.ok [], fun _ => .error (), fun _ => false⟩ ⟨false, 0, false, []⟩ ([], [])
      ⟨"g", [⟨"A", "Healthy", "InService"⟩], []⟩ rfl rfl (by decide)

end Terminator


